import Mathlib

/-!
Verification of the crypto-bot trading system specification.

The repository ships the browser dashboard (React) together with the
documentation and configuration of its Trading Decision & Execution Engine
(feature pipeline, market environment, DQN agent, risk manager, execution
adapter).  The engine's Python sources are not part of the checked-in tree,
so the engine is modelled here directly from the specification text; the
dashboard pages (`Portfolio.js`, which also contains the `Strategies` page)
are embedded from their JavaScript sources.

Money amounts and prices are modelled as rationals.
-/

namespace CryptoBot

/-! ## Data model (spec section 3) -/

/-- Modelled from the spec: a raw OHLCV candle.  The `open` field is named
`open_` because `open` is a Lean keyword. -/
structure Candle where
  open_time : ℕ
  open_ : ℚ
  high : ℚ
  low : ℚ
  close : ℚ
  volume : ℚ
  deriving DecidableEq, Repr

/-- Modelled from the spec: the canonical enumerated action set
`buy_100pct, buy_50pct, buy_25pct, hold, sell_25pct, sell_50pct, sell_100pct`. -/
inductive Action where
  | buy_100pct | buy_50pct | buy_25pct | hold | sell_25pct | sell_50pct | sell_100pct
  deriving DecidableEq, Repr

/-- Fraction of available cash an intended buy action commits. -/
def Action.buyFraction : Action → ℚ
  | .buy_100pct => 1
  | .buy_50pct => 1/2
  | .buy_25pct => 1/4
  | _ => 0

/-- Fraction of the open position an intended sell action closes. -/
def Action.sellFraction : Action → ℚ
  | .sell_100pct => 1
  | .sell_50pct => 1/2
  | .sell_25pct => 1/4
  | _ => 0

/-- Whether the action is a buy (a new entry). -/
def Action.isBuy : Action → Bool
  | .buy_100pct | .buy_50pct | .buy_25pct => true
  | _ => false

/-- Modelled from the spec: an open position
`{symbol, quantity, entry_price, opened_at}`. -/
structure Position where
  symbol : String
  quantity : ℚ
  entry_price : ℚ
  opened_at : ℕ
  deriving DecidableEq, Repr

/-- Modelled from the spec: the portfolio `{cash_balance, positions, ...}`.
The bot trades a single symbol and holds at most one open position, so the
set of positions is an `Option Position`.  `realized_pnl` records realized
profit gross of commissions and `total_fees` the cumulative commissions, so
that the reconciliation invariant can be stated. -/
structure Portfolio where
  cash_balance : ℚ
  position : Option Position
  realized_pnl : ℚ
  total_fees : ℚ
  deriving DecidableEq, Repr

/-- The quantity of the open position (0 when flat). -/
def Portfolio.posQty (pf : Portfolio) : ℚ :=
  match pf.position with
  | some pos => pos.quantity
  | none => 0

/-- Value of the open position at the given market price. -/
def Portfolio.positionValue (pf : Portfolio) (price : ℚ) : ℚ :=
  pf.posQty * price

/-- Equity at the given market price: cash plus position value. -/
def Portfolio.equity (pf : Portfolio) (price : ℚ) : ℚ :=
  pf.cash_balance + pf.positionValue price

/-- Cost basis of the open position: `quantity * entry_price` (0 when flat). -/
def Portfolio.entryValue (pf : Portfolio) : ℚ :=
  match pf.position with
  | some pos => pos.quantity * pos.entry_price
  | none => 0

/-- Unrealized profit and loss of the open position at the given price. -/
def Portfolio.unrealizedPnl (pf : Portfolio) (price : ℚ) : ℚ :=
  match pf.position with
  | some pos => pos.quantity * (price - pos.entry_price)
  | none => 0

/-- A fresh portfolio holding only the initial balance. -/
def initialPortfolio (init : ℚ) : Portfolio :=
  { cash_balance := init, position := none, realized_pnl := 0, total_fees := 0 }

/-- Modelled from the spec: the immutable `RiskLimits` configuration. -/
structure RiskLimits where
  max_position_percentage : ℚ
  max_trade_percentage : ℚ
  stop_loss_pct : ℚ
  take_profit_pct : ℚ
  max_drawdown_limit : ℚ
  max_trades_per_day : ℕ
  min_trade_interval : ℕ
  deriving DecidableEq, Repr

/-- Modelled from the spec: the view of today's trade history that the risk
manager consumes (it has no memory of its own). -/
structure TradeHistoryToday where
  count : ℕ
  seconds_since_last_trade : ℕ
  deriving DecidableEq, Repr

/-! ## Risk & Position Manager (spec section 4.4) -/

/-- An allowed (possibly resized) concrete order: spend `notional` cash on a
buy, or close `quantity` units on a sell. -/
inductive AllowedAction where
  | hold : AllowedAction
  | buy : ℚ → AllowedAction
  | sell : ℚ → AllowedAction
  deriving DecidableEq, Repr

/-- Modelled from the spec: the result of the risk gate — a veto, an allowed
(possibly downsized) action, or a forced full exit of the given quantity. -/
inductive GateResult where
  | veto : GateResult
  | allow : AllowedAction → GateResult
  | forcedExit : ℚ → GateResult
  deriving DecidableEq, Repr

/-- Modelled from the spec: veto rules 1, 2 and 6 and the resizing rule 3 of
the risk manager.  Rule 3 resizes a buy's notional so that it exceeds neither
`max_trade_percentage * equity` nor the headroom left under
`max_position_percentage * equity` (commissions reduce the invested amount by
the factor `1 - fee`). -/
def gateVetoAndResize (intended : Action) (pf : Portfolio) (price fee : ℚ)
    (limits : RiskLimits) (hist : TradeHistoryToday) (drawdown : ℚ) : GateResult :=
  if limits.max_trades_per_day ≤ hist.count then
    .veto
  else if hist.seconds_since_last_trade < limits.min_trade_interval then
    .veto
  else if limits.max_drawdown_limit ≤ drawdown ∧ intended.isBuy then
    .veto
  else if intended.isBuy then
    let eq := pf.equity price
    let cap1 := limits.max_trade_percentage * eq
    let cap2 := max 0 ((limits.max_position_percentage * eq - pf.positionValue price) / (1 - fee))
    .allow (.buy (min (intended.buyFraction * pf.cash_balance) (min cap1 cap2)))
  else if intended.sellFraction ≠ 0 then
    .allow (.sell (intended.sellFraction * pf.posQty))
  else
    .allow .hold

/-- Modelled from the spec: the pure risk gate
`gate(intended_action, portfolio, risk_limits, trade_history_today)`.
Stop-loss and take-profit forced exits (rules 4 and 5) override the veto
rules 1 and 2, so they are checked first; the remaining rules are applied in
the listed order.  The loss / gain conditions are stated multiplicatively
(`stop_loss_pct * entry_price ≤ entry_price - price`) which for a positive
entry price is the fractional condition of the spec. -/
def gate (intended : Action) (pf : Portfolio) (price fee : ℚ)
    (limits : RiskLimits) (hist : TradeHistoryToday) (drawdown : ℚ) : GateResult :=
  match pf.position with
  | some pos =>
    if 0 < pos.quantity ∧ limits.stop_loss_pct * pos.entry_price ≤ pos.entry_price - price then
      .forcedExit pos.quantity
    else if 0 < pos.quantity ∧ limits.take_profit_pct * pos.entry_price ≤ price - pos.entry_price then
      .forcedExit pos.quantity
    else
      gateVetoAndResize intended pf price fee limits hist drawdown
  | none => gateVetoAndResize intended pf price fee limits hist drawdown

/-! ## Order Execution Adapter, simulated fills (spec sections 4.2 and 4.5) -/

/-- Modelled from the spec: the deterministic fill simulator.  A buy spends
`notional` cash; the commission `fee * notional` is deducted from the fill,
so `notional * (1 - fee)` is invested at `price` (averaging the entry price
into an existing position).  A sell of `q` units credits the proceeds net of
commission and realizes `q * (price - entry_price)` gross profit. -/
def applyFill (pf : Portfolio) (a : AllowedAction) (price fee : ℚ) (t : ℕ)
    (sym : String) : Portfolio :=
  match a with
  | .hold => pf
  | .buy n =>
    let commission := fee * n
    let invested := n - commission
    let qtyAdded := invested / price
    let newPos :=
      match pf.position with
      | none => some { symbol := sym, quantity := qtyAdded, entry_price := price, opened_at := t }
      | some pos =>
        let q' := pos.quantity + qtyAdded
        some { pos with quantity := q',
                        entry_price := (pos.quantity * pos.entry_price + invested) / q' }
    { pf with cash_balance := pf.cash_balance - n,
              position := newPos,
              total_fees := pf.total_fees + commission }
  | .sell q =>
    match pf.position with
    | none => pf
    | some pos =>
      let proceeds := q * price
      let commission := fee * proceeds
      let q' := pos.quantity - q
      { pf with cash_balance := pf.cash_balance + proceeds - commission,
                position := if q' = 0 then none else some { pos with quantity := q' },
                realized_pnl := pf.realized_pnl + q * (price - pos.entry_price),
                total_fees := pf.total_fees + commission }

/-- Apply a gate result to the portfolio: vetoes leave it unchanged, allowed
actions are filled, forced exits are filled as a sell of the full quantity. -/
def applyGated (pf : Portfolio) (r : GateResult) (price fee : ℚ) (t : ℕ)
    (sym : String) : Portfolio :=
  match r with
  | .veto => pf
  | .allow a => applyFill pf a price fee t sym
  | .forcedExit q => applyFill pf (.sell q) price fee t sym

/-- Translate an intended discrete action into an ungated concrete order
against the current portfolio (used by the simulated environment). -/
def toAllowed (a : Action) (pf : Portfolio) : AllowedAction :=
  if a.isBuy then .buy (a.buyFraction * pf.cash_balance)
  else if a.sellFraction ≠ 0 then .sell (a.sellFraction * pf.posQty)
  else .hold

/-- One decision-cycle input: the agent's intended action plus the market and
history context the gate consumes. -/
structure StepInput where
  intended : Action
  price : ℚ
  hist : TradeHistoryToday
  drawdown : ℚ
  time : ℕ
  deriving DecidableEq, Repr

/-- Run a sequence of gated decision cycles with confirmed simulated fills,
starting from the initial balance. -/
def runSteps (fee : ℚ) (limits : RiskLimits) (sym : String) (init : ℚ)
    (inputs : List StepInput) : Portfolio :=
  inputs.foldl
    (fun pf i =>
      applyGated pf (gate i.intended pf i.price fee limits i.hist i.drawdown) i.price fee i.time sym)
    (initialPortfolio init)

/-- Solvency of a portfolio: non-negative cash and a non-negative open
quantity. -/
def Portfolio.solvent (pf : Portfolio) : Prop :=
  0 ≤ pf.cash_balance ∧ 0 ≤ pf.posQty

/-- Total equity in the reconciliation sense of the spec: the initial
balance plus the realized profit, positions being carried at their entry
price. -/
def grossEquity (init : ℚ) (pf : Portfolio) : ℚ := init + pf.realized_pnl

/-- The spec's ledger reconciliation:
`sum(position.quantity * position.entry_price) + cash_balance` equals total
equity minus cumulative fees. -/
def reconciles (init : ℚ) (pf : Portfolio) : Prop :=
  pf.entryValue + pf.cash_balance = grossEquity init pf - pf.total_fees

/-! ## Replay buffer and RL agent (spec sections 3 and 4.3) -/

/-- Modelled from the spec: one unit of experience
`(state, action, reward, next_state, done)`. -/
structure Transition where
  state : List ℚ
  action : Action
  reward : ℚ
  next_state : List ℚ
  done : Bool
  deriving DecidableEq, Repr

/-- Modelled from the spec: `observe` appends a transition to the bounded
replay buffer; once capacity is reached the oldest entry is evicted
(ring-buffer semantics). -/
def observe (cap : ℕ) (buf : List Transition) (t : Transition) : List Transition :=
  if buf.length < cap then buf ++ [t] else buf.drop 1 ++ [t]

/-- Insert a whole sequence of transitions, oldest first, into an initially
empty replay buffer of capacity `cap`. -/
def fillBuffer (cap : ℕ) (ts : List Transition) : List Transition :=
  ts.foldl (observe cap) []

/-- Dot product of two parameter / feature vectors (truncating at the
shorter one). -/
def dotQ : List ℚ → List ℚ → ℚ
  | [], _ => 0
  | _, [] => 0
  | x :: xs, y :: ys => x * y + dotQ xs ys

/-- Index of an action in the canonical enumeration. -/
def Action.index : Action → ℕ
  | .buy_100pct => 0
  | .buy_50pct => 1
  | .buy_25pct => 2
  | .hold => 3
  | .sell_25pct => 4
  | .sell_50pct => 5
  | .sell_100pct => 6

/-- One-hot vector of length `n` with a 1 at index `i`. -/
def oneHot (n i : ℕ) : List ℚ :=
  (List.range n).map (fun j => if j = i then 1 else 0)

/-- Feature encoding of a state-action pair for the linear value-function
approximator: the action's one-hot code followed by the state features. -/
def featurize (s : List ℚ) (a : Action) : List ℚ :=
  oneHot 7 a.index ++ s

/-- Value estimate of the approximator with parameters `θ` for `(s, a)`. -/
def qValue (θ : List ℚ) (s : List ℚ) (a : Action) : ℚ :=
  dotQ θ (featurize s a)

/-- All seven discrete actions. -/
def allActions : List Action :=
  [.buy_100pct, .buy_50pct, .buy_25pct, .hold, .sell_25pct, .sell_50pct, .sell_100pct]

/-- Maximal value estimate over all actions for state `s`. -/
def maxQ (θ : List ℚ) (s : List ℚ) : ℚ :=
  (allActions.map (qValue θ s)).foldl max (qValue θ s .hold)

/-- Pointwise sum of two parameter vectors (truncating at the shorter one). -/
def addVec (v w : List ℚ) : List ℚ := v.zipWith (· + ·) w

/-- Scale a vector by a rational factor. -/
def scaleVec (c : ℚ) (v : List ℚ) : List ℚ := v.map (c * ·)

/-- Modelled from the spec: the agent state — online and target value
function parameters, the replay buffer, and the learning hyper-parameters. -/
structure AgentState where
  params : List ℚ
  target_params : List ℚ
  buffer : List Transition
  batch_size : ℕ
  gamma : ℚ
  learning_rate : ℚ
  epsilon : ℚ
  deriving DecidableEq, Repr

/-- Modelled from the spec: the Q-learning target
`reward + gamma * (1 - done) * max Q_target(next_state, a)`. -/
def qTarget (st : AgentState) (tr : Transition) : ℚ :=
  tr.reward + st.gamma * (if tr.done then 0 else maxQ st.target_params tr.next_state)

/-- Modelled from the spec: `learn()`.  If the buffer holds fewer than
`batch_size` transitions this is a no-op; otherwise the caller-supplied
sample indices select a batch and one gradient step moves the online
parameters toward the Q-learning targets. -/
def learn (sample : List ℕ) (st : AgentState) : AgentState :=
  if st.buffer.length < st.batch_size then st
  else
    let batch := sample.filterMap (fun i => st.buffer.get? i)
    let updated := batch.foldl
      (fun θ tr =>
        addVec θ (scaleVec (st.learning_rate * (qTarget st tr - qValue θ tr.state tr.action))
          (featurize tr.state tr.action)))
      st.params
    { st with params := updated }

/-- Modelled from the spec: the periodic hard update copying the online
parameters into the target value function. -/
def syncTarget (st : AgentState) : AgentState :=
  { st with target_params := st.params }

/-! ## Feature pipeline (spec section 4.1) -/

/-- Modelled from the spec: the normalized account context entering the
agent's observation. -/
structure AccountContext where
  cash_fraction : ℚ
  position_fraction : ℚ
  unrealized_pnl_fraction : ℚ
  deriving DecidableEq, Repr

/-- Modelled from the spec: the agent's observation — feature vector plus
account context. -/
structure TradingState where
  features : List ℚ
  account : AccountContext
  deriving DecidableEq, Repr

/-- Modelled from the spec: the feature pipeline's error taxonomy. -/
inductive PipelineError where
  | InsufficientHistory : PipelineError
  deriving DecidableEq, Repr

/-- Closing prices of a candle sequence. -/
def closes (cs : List Candle) : List ℚ := cs.map (·.close)

/-- Simple moving average of the last `k` values. -/
def sma (k : ℕ) (xs : List ℚ) : ℚ := (xs.drop (xs.length - k)).sum / k

/-- Exponential moving average with smoothing `α`, computed over the full
available history (not re-initialized per window, as the spec requires). -/
def ema (α : ℚ) : List ℚ → ℚ
  | [] => 0
  | x :: xs => xs.foldl (fun acc y => α * y + (1 - α) * acc) x

/-- Modelled from the spec: `compute_state(candles, account_context)`.
Fails with `InsufficientHistory` when fewer than `lookback` candles are
available; otherwise returns the windowed closes plus indicator values and
the account context. -/
def compute_state (lookback : ℕ) (cs : List Candle) (acct : AccountContext) :
    Except PipelineError TradingState :=
  if cs.length < lookback then .error .InsufficientHistory
  else
    let xs := closes cs
    let window := xs.drop (xs.length - lookback)
    .ok { features := window ++ [sma lookback xs, ema (2 / (lookback + 1)) xs],
          account := acct }

/-! ## Market environment (spec section 4.2) -/

/-- Modelled from the spec: the environment's state machine states. -/
inductive EnvMode where
  | Ready | InEpisode | Terminated
  deriving DecidableEq, Repr

/-- Modelled from the spec: the environment's error taxonomy.
`EpisodeEnded` flags a `step` after termination. -/
inductive EnvError where
  | EpisodeEnded | NotStarted
  deriving DecidableEq, Repr

/-- Modelled from the spec: the simulated market environment owning all
mutable episode state. -/
structure MarketEnv where
  mode : EnvMode
  candles : List Candle
  idx : ℕ
  steps : ℕ
  max_episode_length : ℕ
  initial_balance : ℚ
  commission_fee : ℚ
  symbol : String
  portfolio : Portfolio
  deriving DecidableEq, Repr

/-- Closing price of the candle at index `i` (0 past the end). -/
def priceAt (cs : List Candle) (i : ℕ) : ℚ :=
  match cs.get? i with
  | some c => c.close
  | none => 0

/-- Modelled from the spec: `reset()` re-initializes the simulated balance,
clears the position and enters `InEpisode`. -/
def MarketEnv.reset (env : MarketEnv) : MarketEnv :=
  { env with mode := .InEpisode, idx := 0, steps := 0,
             portfolio := initialPortfolio env.initial_balance }

/-- Modelled from the spec: `step(action)` — valid only in `InEpisode`:
fills the action at the current candle's close, advances to the next candle,
rewards the step profit and loss, and terminates when the candle stream is
exhausted or `max_episode_length` steps are reached.  Calling `step` after
`Terminated` fails with `EpisodeEnded`. -/
def MarketEnv.step (env : MarketEnv) (a : Action) : Except EnvError (MarketEnv × ℚ × Bool) :=
  match env.mode with
  | .InEpisode =>
    let p := priceAt env.candles env.idx
    let pNext := priceAt env.candles (env.idx + 1)
    let pf := applyFill env.portfolio (toAllowed a env.portfolio) p env.commission_fee env.idx env.symbol
    let reward := pf.equity pNext - env.portfolio.equity p
    let done := (env.candles.length ≤ env.idx + 2) || (env.max_episode_length ≤ env.steps + 1)
    .ok ({ env with mode := if done then .Terminated else .InEpisode,
                    idx := env.idx + 1, steps := env.steps + 1, portfolio := pf },
         reward, done)
  | .Terminated => .error .EpisodeEnded
  | .Ready => .error .NotStarted

/-! ## Dashboard: Portfolio page (src/frontend/src/pages/Portfolio.js) -/

/-- One asset row of the portfolio API response. -/
structure Asset where
  symbol : String
  amount : ℚ
  value : ℚ
  deriving DecidableEq, Repr

/-- The page size used by the Portfolio page (`itemsPerPage = 20`). -/
def itemsPerPage : ℕ := 20

/-- `fetchData`: keep only the assets with `amount > 0`
(`response.data.assets.filter(asset => asset.amount > 0)`). -/
def filteredAssets (assets : List Asset) : List Asset :=
  assets.filter (fun a => 0 < a.amount)

/-- `totalPages = Math.ceil(assets.length / itemsPerPage)`. -/
def totalPages (n : ℕ) : ℕ := (n + (itemsPerPage - 1)) / itemsPerPage

/-- `currentAssets = assets.slice((page - 1) * 20, (page - 1) * 20 + 20)`. -/
def currentAssets (page : ℕ) (assets : List Asset) : List Asset :=
  (assets.drop ((page - 1) * itemsPerPage)).take itemsPerPage

/-! ## Dashboard: Strategies page form updates
(src/frontend/src/pages/Portfolio.js, `Strategies.handleFormChange`) -/

/-- A sample transition whose state feature is the number `i`. -/
def sampleTransition (i : ℕ) : Transition :=
  { state := [(i : ℚ)], action := .hold, reward := 0, next_state := [], done := false }

/-- A flat sample candle at price `p` and time `i`. -/
def sampleCandle (i : ℕ) (p : ℚ) : Candle :=
  { open_time := i, open_ := p, high := p, low := p, close := p, volume := 1 }

/-- A sample agent state whose replay buffer holds a single transition. -/
def sampleAgent : AgentState :=
  { params := [1, 0], target_params := [1, 0], buffer := [sampleTransition 1],
    batch_size := 64, gamma := 99/100, learning_rate := 1/10000, epsilon := 1 }

/-- Sample risk limits: 20% position cap, 5% trade cap, 5% stop loss,
15% take profit, 20% drawdown limit, 10 trades/day, 1h minimum interval. -/
def sampleLimits : RiskLimits :=
  { max_position_percentage := 1/5, max_trade_percentage := 1/20,
    stop_loss_pct := 1/20, take_profit_pct := 3/20, max_drawdown_limit := 1/5,
    max_trades_per_day := 10, min_trade_interval := 3600 }

/-- A sample open position: 1 unit bought at 100. -/
def samplePosition : Position :=
  { symbol := "BTCUSDT", quantity := 1, entry_price := 100, opened_at := 0 }

/-- A sample portfolio holding `samplePosition` and 50 in cash. -/
def samplePortfolio : Portfolio :=
  { cash_balance := 50, position := some samplePosition,
    realized_pnl := 0, total_fees := 0 }

/-- A portfolio whose open position (10 units at entry 100) is already worth
far more than 20% of equity. -/
def overCapPortfolio : Portfolio :=
  { cash_balance := 0,
    position := some { symbol := "BTCUSDT", quantity := 10, entry_price := 100, opened_at := 0 },
    realized_pnl := 0, total_fees := 0 }

/-- A sample environment that has already terminated. -/
def sampleEnvTerminated : MarketEnv :=
  { mode := .Terminated, candles := [sampleCandle 0 100, sampleCandle 1 110],
    idx := 1, steps := 1, max_episode_length := 10, initial_balance := 10000,
    commission_fee := 1/1000, symbol := "BTCUSDT", portfolio := initialPortfolio 10000 }

/-- A sample environment in the middle of an episode. -/
def sampleEnvRunning : MarketEnv :=
  { mode := .InEpisode, candles := [sampleCandle 0 100, sampleCandle 1 110],
    idx := 0, steps := 0, max_episode_length := 10, initial_balance := 10000,
    commission_fee := 1/1000, symbol := "BTCUSDT", portfolio := initialPortfolio 10000 }

/-- A portfolio holding `samplePosition` with ample cash, so its position
value (100) is below the 20% cap of its equity (1100). -/
def underCapPortfolio : Portfolio :=
  { cash_balance := 1000, position := some samplePosition,
    realized_pnl := 0, total_fees := 0 }

/-- A concrete two-cycle input sequence: buy half the cash at 100, then
close the position at 110. -/
def c2Inputs : List StepInput :=
  [{ intended := .buy_50pct, price := 100, hist := ⟨0, 7200⟩, drawdown := 0, time := 0 },
   { intended := .sell_100pct, price := 110, hist := ⟨1, 7200⟩, drawdown := 0, time := 1 }]

/-- The portfolio after the spec's C8 scenario fill: a `buy_100pct` from a
fresh 10000 balance at entry price `p` with `commission_fee = 0.001`. -/
def scenarioPortfolio (p : ℚ) : Portfolio :=
  applyFill (initialPortfolio 10000) (toAllowed .buy_100pct (initialPortfolio 10000))
    p (1/1000) 0 "BTCUSDT"

/-- Sample portfolio API assets, one of them with amount 0. -/
def sampleAssets : List Asset :=
  [{ symbol := "BTC", amount := 1/2, value := 30000 },
   { symbol := "ETH", amount := 0, value := 0 },
   { symbol := "BNB", amount := 3, value := 1800 }]

/-! ## Replay buffer: ring-buffer eviction law (claim C4) -/

theorem fillBuffer_append (cap : ℕ) (ts : List Transition) (t : Transition) :
    fillBuffer cap (ts ++ [t]) = observe cap (fillBuffer cap ts) t := by
  simp [fillBuffer]

theorem fillBuffer_eq_drop (cap : ℕ) (hcap : 0 < cap) (ts : List Transition) :
    fillBuffer cap ts = ts.drop (ts.length - cap) := by
  induction ts using List.reverseRecOn with
  | nil => simp [fillBuffer]
  | append_singleton ts t ih =>
    rw [fillBuffer_append, ih, observe]
    rcases lt_or_ge ts.length cap with h | h
    · rw [if_pos (by simp [List.length_drop]; omega)]
      have h1 : ts.length - cap = 0 := by omega
      have h2 : ts.length + 1 - cap = 0 := by omega
      simp [h1, h2]
    · rw [if_neg (by simp [List.length_drop]; omega)]
      rw [List.drop_drop]
      have h2 : (ts ++ [t]).length - cap = (ts.length - cap) + 1 := by simp; omega
      rw [h2, List.drop_append_of_le_length (by omega)]

/-- Claim C4: inserting more than `buffer_size` transitions into the replay
buffer retains exactly the most recent `buffer_size` of them in insertion
order (ring-buffer eviction law). -/
theorem fillBuffer_ring_eviction (cap : ℕ) (ts : List Transition)
    (hcap : 0 < cap) (hlen : cap < ts.length) :
    fillBuffer cap ts = ts.drop (ts.length - cap)
      ∧ (fillBuffer cap ts).length = cap := by
  refine ⟨fillBuffer_eq_drop cap hcap ts, ?_⟩
  rw [fillBuffer_eq_drop cap hcap ts]
  simp [List.length_drop]
  omega

/-- Witness for C4, the spec's scenario: `buffer_size = 3`, inserting
T1..T5 leaves exactly T3, T4, T5. -/
theorem fillBuffer_ring_eviction_witness :
    0 < 3
    ∧ 3 < ([sampleTransition 1, sampleTransition 2, sampleTransition 3,
            sampleTransition 4, sampleTransition 5] : List Transition).length
    ∧ fillBuffer 3 [sampleTransition 1, sampleTransition 2, sampleTransition 3,
        sampleTransition 4, sampleTransition 5]
      = [sampleTransition 3, sampleTransition 4, sampleTransition 5] := by
  have h := fillBuffer_ring_eviction 3
    [sampleTransition 1, sampleTransition 2, sampleTransition 3,
     sampleTransition 4, sampleTransition 5] (by norm_num) (by simp)
  exact ⟨by norm_num, by simp, by rw [h.1]; rfl⟩

/-! ## Agent: learn() is a no-op on an under-filled buffer (claim C6) -/

/-- Claim C6: when the replay buffer holds fewer than `batch_size`
transitions, `learn()` throws no error and leaves the whole agent state —
value function, target network and buffer — unchanged. -/
theorem learn_underfilled_noop (sample : List ℕ) (st : AgentState)
    (h : st.buffer.length < st.batch_size) : learn sample st = st := by
  simp [learn, h]

/-- Witness for C6 at a concrete agent state with 1 < 64 transitions. -/
theorem learn_underfilled_noop_witness :
    sampleAgent.buffer.length < sampleAgent.batch_size
    ∧ learn [0, 0, 0] sampleAgent = sampleAgent :=
  ⟨by simp [sampleAgent], learn_underfilled_noop [0, 0, 0] sampleAgent (by simp [sampleAgent])⟩

/-! ## Feature pipeline determinism (claim C7) -/

/-- Claim C7: `compute_state` is a pure function — two runs on identical
candle windows and account contexts return identical states. -/
theorem compute_state_deterministic (lookback : ℕ) (cs₁ cs₂ : List Candle)
    (a₁ a₂ : AccountContext) (hc : cs₁ = cs₂) (ha : a₁ = a₂) :
    compute_state lookback cs₁ a₁ = compute_state lookback cs₂ a₂ := by
  rw [hc, ha]

/-- Witness for C7 on a concrete 2-candle window. -/
theorem compute_state_deterministic_witness :
    compute_state 2 [sampleCandle 0 100, sampleCandle 1 110] ⟨1, 0, 0⟩
      = compute_state 2 [sampleCandle 0 100, sampleCandle 1 110] ⟨1, 0, 0⟩ :=
  compute_state_deterministic 2 _ _ _ _ rfl rfl

/-! ## Market environment termination contract (claim C5) -/

/-- Claim C5: `step` called after `Terminated` fails with `EpisodeEnded`,
and a step during `InEpisode` returns `done = true` exactly when the candle
stream is exhausted or `max_episode_length` steps have been reached, in
which case (and only then) the environment transitions to `Terminated`. -/
theorem step_termination_contract (env : MarketEnv) (a : Action) :
    (env.mode = .Terminated → env.step a = .error .EpisodeEnded)
    ∧ (env.mode = .InEpisode →
        ∃ env' r d, env.step a = .ok (env', r, d)
          ∧ ((d = true) ↔
              (env.candles.length ≤ env.idx + 2 ∨ env.max_episode_length ≤ env.steps + 1))
          ∧ (env'.mode = .Terminated ↔ d = true)) := by
  constructor
  · intro h
    simp [MarketEnv.step, h]
  · intro h
    simp only [MarketEnv.step, h]
    refine ⟨_, _, _, rfl, ?_, ?_⟩
    · simp
    · by_cases h1 : env.candles.length ≤ env.idx + 2 <;>
        by_cases h2 : env.max_episode_length ≤ env.steps + 1 <;>
        simp [h1, h2]

/-- Witness for C5 at a terminated and at a running sample environment. -/
theorem step_termination_contract_witness :
    (sampleEnvTerminated.step .hold = .error .EpisodeEnded)
    ∧ (∃ env' r d, sampleEnvRunning.step .buy_50pct = .ok (env', r, d)
        ∧ ((d = true) ↔
            (sampleEnvRunning.candles.length ≤ sampleEnvRunning.idx + 2
              ∨ sampleEnvRunning.max_episode_length ≤ sampleEnvRunning.steps + 1))
        ∧ (env'.mode = .Terminated ↔ d = true)) :=
  ⟨(step_termination_contract sampleEnvTerminated .hold).1 rfl,
   (step_termination_contract sampleEnvRunning .buy_50pct).2 rfl⟩

/-! ## Risk gate: stop-loss forces a full exit (claim C3) -/

/-- Claim C3: whenever the open position's unrealized loss reaches
`stop_loss_pct`, the risk gate returns a forced full exit whatever the
intended action and whatever today's trade history says (the daily trade cap
and the minimum trade interval are quantified over arbitrarily, so the
forced exit overrides veto rules 1 and 2). -/
theorem gate_stop_loss_forces_exit (intended : Action) (pf : Portfolio) (pos : Position)
    (price fee : ℚ) (limits : RiskLimits) (hist : TradeHistoryToday) (drawdown : ℚ)
    (hpos : pf.position = some pos) (hq : 0 < pos.quantity) (hentry : 0 < pos.entry_price)
    (hloss : limits.stop_loss_pct ≤ (pos.entry_price - price) / pos.entry_price) :
    gate intended pf price fee limits hist drawdown = .forcedExit pos.quantity := by
  have h : limits.stop_loss_pct * pos.entry_price ≤ pos.entry_price - price :=
    (le_div_iff₀ hentry).mp hloss
  simp [gate, hpos, hq, h]

/-- Witness for C3: position down 6% with `stop_loss_pct = 5%`, while the
daily trade budget is already exhausted and the last trade was 0 seconds
ago — the gate still forces the full exit. -/
theorem gate_stop_loss_forces_exit_witness :
    samplePortfolio.position = some samplePosition
    ∧ 0 < samplePosition.quantity
    ∧ 0 < samplePosition.entry_price
    ∧ sampleLimits.stop_loss_pct
        ≤ (samplePosition.entry_price - 94) / samplePosition.entry_price
    ∧ sampleLimits.max_trades_per_day ≤ (10 : ℕ)
    ∧ gate .buy_100pct samplePortfolio 94 (1/1000) sampleLimits ⟨10, 0⟩ 0
        = .forcedExit samplePosition.quantity := by
  refine ⟨rfl, by norm_num [samplePosition], by norm_num [samplePosition],
    by norm_num [sampleLimits, samplePosition], by norm_num [sampleLimits], ?_⟩
  exact gate_stop_loss_forces_exit .buy_100pct samplePortfolio samplePosition 94 (1/1000)
    sampleLimits ⟨10, 0⟩ 0 rfl (by norm_num [samplePosition]) (by norm_num [samplePosition])
    (by norm_num [sampleLimits, samplePosition])

/-! ## Fill simulator: the 10000-balance buy_100pct scenario (claim C8) -/

/-- Claim C8: with `initial_balance = 10000` and `commission_fee = 0.001`,
filling `buy_100pct` at entry price `p` leaves zero cash (the commission
`0.001 * 10000` having been deducted from the notional), a position of
`10000 * (1 - 0.001) / p` units, and — after a 10% price rise — an
unrealized profit of 10% of the invested (net-of-commission) notional. -/
theorem buy_100pct_scenario (p : ℚ) (hp : 0 < p) :
    (scenarioPortfolio p).cash_balance = 0
    ∧ (scenarioPortfolio p).posQty = 10000 * (1 - 1/1000) / p
    ∧ (scenarioPortfolio p).total_fees = (1/1000) * 10000
    ∧ (scenarioPortfolio p).unrealizedPnl ((11/10) * p)
        = (1/10) * (10000 * (1 - 1/1000)) := by
  have hp0 : p ≠ 0 := ne_of_gt hp
  refine ⟨?_, ?_, ?_, ?_⟩
  · norm_num [scenarioPortfolio, applyFill, toAllowed, initialPortfolio, Action.isBuy,
      Action.buyFraction]
  · norm_num [scenarioPortfolio, applyFill, toAllowed, initialPortfolio, Action.isBuy,
      Action.buyFraction, Portfolio.posQty]
  · norm_num [scenarioPortfolio, applyFill, toAllowed, initialPortfolio, Action.isBuy,
      Action.buyFraction]
  · norm_num [scenarioPortfolio, applyFill, toAllowed, initialPortfolio, Action.isBuy,
      Action.buyFraction, Portfolio.unrealizedPnl]
    field_simp
    ring

/-- Witness for C8 at entry price 100. -/
theorem buy_100pct_scenario_witness :
    (0 : ℚ) < 100
    ∧ ((scenarioPortfolio 100).cash_balance = 0
       ∧ (scenarioPortfolio 100).posQty = 10000 * (1 - 1/1000) / 100
       ∧ (scenarioPortfolio 100).total_fees = (1/1000) * 10000
       ∧ (scenarioPortfolio 100).unrealizedPnl ((11/10) * 100)
           = (1/10) * (10000 * (1 - 1/1000))) :=
  ⟨by norm_num, buy_100pct_scenario 100 (by norm_num)⟩

/-! ## Portfolio page: filtering and pagination (claim C9) -/

/-- Claim C9: the Portfolio page keeps exactly the assets with amount
strictly greater than 0, shows at most 20 assets per page, page `p` shows
precisely the filtered assets at indices `(p-1)*20 .. p*20 - 1`, and a page
is non-empty exactly when `p ≤ ceil(n / 20)` — the number of pages computed
by the component. -/
theorem portfolio_filter_pagination (assets : List Asset) (p : ℕ) (hp : 1 ≤ p) :
    (∀ a, a ∈ filteredAssets assets ↔ a ∈ assets ∧ 0 < a.amount)
    ∧ (currentAssets p (filteredAssets assets)).length ≤ itemsPerPage
    ∧ (∀ i : ℕ, (currentAssets p (filteredAssets assets))[i]? =
        if i < itemsPerPage then (filteredAssets assets)[(p - 1) * itemsPerPage + i]? else none)
    ∧ (0 < (currentAssets p (filteredAssets assets)).length ↔
        p ≤ totalPages (filteredAssets assets).length) := by
  refine ⟨?_, ?_, ?_, ?_⟩
  · intro a
    simp [filteredAssets, List.mem_filter]
  · simp [currentAssets]
  · intro i
    by_cases hi : i < itemsPerPage
    · rw [if_pos hi]
      rw [currentAssets, List.getElem?_take_of_lt hi, List.getElem?_drop]
    · rw [if_neg hi]
      refine List.getElem?_eq_none_iff.mpr ?_
      have hlen : (currentAssets p (filteredAssets assets)).length ≤ itemsPerPage := by
        simp [currentAssets]
      omega
  · rw [currentAssets, totalPages]
    simp only [List.length_take, List.length_drop, itemsPerPage]
    rw [Nat.le_div_iff_mul_le (by norm_num : (0:ℕ) < 20)]
    omega

/-- Witness for C9 on a 3-asset response (one zero-amount asset), page 1. -/
theorem portfolio_filter_pagination_witness :
    (∀ a, a ∈ filteredAssets sampleAssets ↔ a ∈ sampleAssets ∧ 0 < a.amount)
    ∧ (currentAssets 1 (filteredAssets sampleAssets)).length ≤ itemsPerPage
    ∧ (∀ i : ℕ, (currentAssets 1 (filteredAssets sampleAssets))[i]? =
        if i < itemsPerPage then (filteredAssets sampleAssets)[(1 - 1) * itemsPerPage + i]? else none)
    ∧ (0 < (currentAssets 1 (filteredAssets sampleAssets)).length ↔
        1 ≤ totalPages (filteredAssets sampleAssets).length) :=
  portfolio_filter_pagination sampleAssets 1 (by norm_num)

/-! ## Risk gate: position cap (claim C1) -/

theorem Action.buyFraction_nonneg (a : Action) : 0 ≤ a.buyFraction := by
  cases a <;> norm_num [Action.buyFraction]

theorem Action.buyFraction_le_one (a : Action) : a.buyFraction ≤ 1 := by
  cases a <;> norm_num [Action.buyFraction]

theorem Action.sellFraction_nonneg (a : Action) : 0 ≤ a.sellFraction := by
  cases a <;> norm_num [Action.sellFraction]

theorem Action.sellFraction_le_one (a : Action) : a.sellFraction ≤ 1 := by
  cases a <;> norm_num [Action.sellFraction]

theorem posQty_applyFill_buy (pf : Portfolio) (n price fee : ℚ) (t : ℕ) (sym : String) :
    (applyFill pf (.buy n) price fee t sym).posQty = pf.posQty + (n - fee * n) / price := by
  cases hpos : pf.position <;> simp [applyFill, Portfolio.posQty, hpos]

theorem posQty_applyFill_sell (pf : Portfolio) (pos : Position) (q price fee : ℚ)
    (t : ℕ) (sym : String) (hpos : pf.position = some pos) :
    (applyFill pf (.sell q) price fee t sym).posQty = pos.quantity - q := by
  simp only [applyFill, hpos, Portfolio.posQty]
  by_cases h : pos.quantity - q = 0 <;> simp [h]

theorem buy_cap_bound (x price fee n D : ℚ) (hfee1 : fee < 1) (hp : 0 < price)
    (hn : n ≤ max 0 (D / (1 - fee))) (hD : 0 ≤ D) :
    (x + (n - fee * n) / price) * price ≤ x * price + D := by
  have h1f : (0:ℚ) < 1 - fee := by linarith
  have hmul : (n - fee * n) / price * price = n * (1 - fee) := by
    field_simp
    ring
  have hb : n * (1 - fee) ≤ D := by
    have h := mul_le_mul_of_nonneg_right hn (le_of_lt h1f)
    rwa [max_mul_of_nonneg _ _ (le_of_lt h1f), zero_mul,
      div_mul_cancel₀ _ (ne_of_gt h1f), max_eq_right hD] at h
  calc (x + (n - fee * n) / price) * price
      = x * price + (n - fee * n) / price * price := by ring
    _ = x * price + n * (1 - fee) := by rw [hmul]
    _ ≤ x * price + D := by linarith

theorem gateVetoAndResize_cap (intended : Action) (pf : Portfolio)
    (price fee : ℚ) (limits : RiskLimits) (hist : TradeHistoryToday) (drawdown : ℚ)
    (t : ℕ) (sym : String)
    (hfee1 : fee < 1) (hp : 0 < price) (hq : 0 ≤ pf.posQty)
    (hcap : pf.positionValue price ≤ limits.max_position_percentage * pf.equity price) :
    (applyGated pf (gateVetoAndResize intended pf price fee limits hist drawdown)
        price fee t sym).positionValue price
      ≤ limits.max_position_percentage * pf.equity price := by
  have hD : 0 ≤ limits.max_position_percentage * pf.equity price - pf.positionValue price := by
    linarith
  unfold gateVetoAndResize
  split_ifs with h1 h2 h3 h4 h5
  · exact hcap
  · exact hcap
  · exact hcap
  · -- resized buy
    simp only [applyGated, Portfolio.positionValue, posQty_applyFill_buy]
    have hn : min (intended.buyFraction * pf.cash_balance)
        (min (limits.max_trade_percentage * pf.equity price)
          (max 0 ((limits.max_position_percentage * pf.equity price
            - pf.positionValue price) / (1 - fee))))
        ≤ max 0 ((limits.max_position_percentage * pf.equity price
            - pf.positionValue price) / (1 - fee)) :=
      le_trans (min_le_right _ _) (min_le_right _ _)
    have h := buy_cap_bound pf.posQty price fee _ _ hfee1 hp hn hD
    calc (pf.posQty + (min (intended.buyFraction * pf.cash_balance)
            (min (limits.max_trade_percentage * pf.equity price)
              (max 0 ((limits.max_position_percentage * pf.equity price
                - pf.positionValue price) / (1 - fee))))
          - fee * min (intended.buyFraction * pf.cash_balance)
            (min (limits.max_trade_percentage * pf.equity price)
              (max 0 ((limits.max_position_percentage * pf.equity price
                - pf.positionValue price) / (1 - fee))))) / price) * price
        ≤ pf.posQty * price
          + (limits.max_position_percentage * pf.equity price - pf.positionValue price) := h
      _ = limits.max_position_percentage * pf.equity price := by
          simp [Portfolio.positionValue]
  · -- allowed sell of a fraction of the position
    cases hpos : pf.position with
    | none =>
      simp [applyGated, applyFill, hpos, hcap]
    | some pos =>
      have hqq : pf.posQty = pos.quantity := by simp [Portfolio.posQty, hpos]
      simp only [applyGated, Portfolio.positionValue,
        posQty_applyFill_sell pf pos _ price fee t sym hpos]
      have hfr0 : 0 ≤ intended.sellFraction := Action.sellFraction_nonneg intended
      have hsold : 0 ≤ intended.sellFraction * pf.posQty * price := by
        have := mul_nonneg (mul_nonneg hfr0 hq) (le_of_lt hp)
        linarith
      rw [hqq] at hsold
      have hexp : (pos.quantity - intended.sellFraction * pos.quantity) * price
          = pos.quantity * price - intended.sellFraction * pos.quantity * price := by
        ring
      have hval : pf.positionValue price = pos.quantity * price := by
        simp [Portfolio.positionValue, hqq]
      rw [hqq, hexp]
      linarith [hcap, hval]
  · -- hold
    simpa [applyGated, applyFill] using hcap

/-- Claim C1 (amended): provided the portfolio's current position value is
within `max_position_percentage * equity`, no action allowed by the risk
gate results in a position value exceeding that cap — buys are resized to
the remaining headroom, and holds, sells, vetoes and forced exits never
increase the position. -/
theorem gate_preserves_position_cap (intended : Action) (pf : Portfolio)
    (price fee : ℚ) (limits : RiskLimits) (hist : TradeHistoryToday) (drawdown : ℚ)
    (t : ℕ) (sym : String)
    (hfee1 : fee < 1) (hp : 0 < price) (hq : 0 ≤ pf.posQty)
    (hcap : pf.positionValue price ≤ limits.max_position_percentage * pf.equity price) :
    (applyGated pf (gate intended pf price fee limits hist drawdown)
        price fee t sym).positionValue price
      ≤ limits.max_position_percentage * pf.equity price := by
  have hcap0 : 0 ≤ limits.max_position_percentage * pf.equity price := by
    have hpv : 0 ≤ pf.positionValue price := mul_nonneg hq (le_of_lt hp)
    linarith
  unfold gate
  cases hpos : pf.position with
  | none =>
    exact gateVetoAndResize_cap intended pf price fee limits hist drawdown t sym hfee1 hp
      hq hcap
  | some pos =>
    dsimp only
    split_ifs with h1 h2
    · simp only [applyGated, Portfolio.positionValue,
        posQty_applyFill_sell pf pos _ price fee t sym hpos]
      simpa using hcap0
    · simp only [applyGated, Portfolio.positionValue,
        posQty_applyFill_sell pf pos _ price fee t sym hpos]
      simpa using hcap0
    · exact gateVetoAndResize_cap intended pf price fee limits hist drawdown t sym hfee1
        hp hq hcap

/-- Counterexample to C1 as stated: a portfolio whose position is already
worth more than `max_position_percentage * equity` passes an intended
`hold` through the gate untouched, so the resulting position value still
exceeds the cap. -/
theorem gate_position_cap_counterexample :
    ¬ ((applyGated overCapPortfolio
          (gate .hold overCapPortfolio 100 0 sampleLimits ⟨0, 7200⟩ 0)
          100 0 1 "BTCUSDT").positionValue 100
        ≤ sampleLimits.max_position_percentage * overCapPortfolio.equity 100) := by
  norm_num [gate, gateVetoAndResize, applyGated, applyFill, overCapPortfolio, sampleLimits,
    Action.isBuy, Action.sellFraction, Portfolio.positionValue, Portfolio.posQty,
    Portfolio.equity]

/-- Witness for the amended C1 at a concrete in-cap portfolio and an
intended `buy_100pct`. -/
theorem gate_preserves_position_cap_witness :
    (1/1000 : ℚ) < 1
    ∧ (0 : ℚ) < 100
    ∧ 0 ≤ underCapPortfolio.posQty
    ∧ underCapPortfolio.positionValue 100
        ≤ sampleLimits.max_position_percentage * underCapPortfolio.equity 100
    ∧ (applyGated underCapPortfolio
          (gate .buy_100pct underCapPortfolio 100 (1/1000) sampleLimits ⟨0, 7200⟩ 0)
          100 (1/1000) 1 "BTCUSDT").positionValue 100
        ≤ sampleLimits.max_position_percentage * underCapPortfolio.equity 100 := by
  refine ⟨by norm_num, by norm_num,
    by norm_num [underCapPortfolio, samplePosition, Portfolio.posQty],
    by norm_num [underCapPortfolio, samplePosition, sampleLimits,
      Portfolio.positionValue, Portfolio.posQty, Portfolio.equity], ?_⟩
  exact gate_preserves_position_cap .buy_100pct underCapPortfolio 100 (1/1000) sampleLimits
    ⟨0, 7200⟩ 0 1 "BTCUSDT" (by norm_num) (by norm_num)
    (by norm_num [underCapPortfolio, samplePosition, Portfolio.posQty])
    (by norm_num [underCapPortfolio, samplePosition, sampleLimits,
      Portfolio.positionValue, Portfolio.posQty, Portfolio.equity])

/-! ## Portfolio solvency and ledger reconciliation (claim C2) -/

theorem cash_applyFill_buy (pf : Portfolio) (n price fee : ℚ) (t : ℕ) (sym : String) :
    (applyFill pf (.buy n) price fee t sym).cash_balance = pf.cash_balance - n := by
  cases hpos : pf.position <;> simp [applyFill, hpos]

theorem fees_applyFill_buy (pf : Portfolio) (n price fee : ℚ) (t : ℕ) (sym : String) :
    (applyFill pf (.buy n) price fee t sym).total_fees = pf.total_fees + fee * n := by
  cases hpos : pf.position <;> simp [applyFill, hpos]

theorem realized_applyFill_buy (pf : Portfolio) (n price fee : ℚ) (t : ℕ) (sym : String) :
    (applyFill pf (.buy n) price fee t sym).realized_pnl = pf.realized_pnl := by
  cases hpos : pf.position <;> simp [applyFill, hpos]

theorem entryValue_applyFill_buy (pf : Portfolio) (n price fee : ℚ) (t : ℕ) (sym : String)
    (hp : 0 < price) (hq : 0 ≤ pf.posQty) (hinv0 : 0 ≤ n - fee * n) :
    (applyFill pf (.buy n) price fee t sym).entryValue = pf.entryValue + (n - fee * n) := by
  cases hpos : pf.position with
  | none =>
    simp [applyFill, hpos, Portfolio.entryValue, div_mul_cancel₀ _ (ne_of_gt hp)]
  | some pos =>
    have hqq : pf.posQty = pos.quantity := by simp [Portfolio.posQty, hpos]
    rw [hqq] at hq
    have hdiv0 : 0 ≤ (n - fee * n) / price := div_nonneg hinv0 (le_of_lt hp)
    by_cases hz : pos.quantity + (n - fee * n) / price = 0
    · have hq0 : pos.quantity = 0 := by linarith
      have hi0 : (n - fee * n) / price = 0 := by linarith
      have hinv00 : n - fee * n = 0 := by
        rcases div_eq_zero_iff.mp hi0 with h | h
        · exact h
        · exact absurd h (ne_of_gt hp)
      simp [applyFill, hpos, Portfolio.entryValue, hz, hq0, hinv00]
    · have hcan : (pos.quantity + (n - fee * n) / price)
          * ((pos.quantity * pos.entry_price + (n - fee * n))
            / (pos.quantity + (n - fee * n) / price))
          = pos.quantity * pos.entry_price + (n - fee * n) := by
        rw [mul_comm]
        exact div_mul_cancel₀ _ hz
      simp only [applyFill, hpos, Portfolio.entryValue]
      rw [hcan]

theorem cash_applyFill_sell (pf : Portfolio) (pos : Position) (q price fee : ℚ)
    (t : ℕ) (sym : String) (hpos : pf.position = some pos) :
    (applyFill pf (.sell q) price fee t sym).cash_balance
      = pf.cash_balance + q * price - fee * (q * price) := by
  simp [applyFill, hpos]

theorem fees_applyFill_sell (pf : Portfolio) (pos : Position) (q price fee : ℚ)
    (t : ℕ) (sym : String) (hpos : pf.position = some pos) :
    (applyFill pf (.sell q) price fee t sym).total_fees
      = pf.total_fees + fee * (q * price) := by
  simp [applyFill, hpos]

theorem realized_applyFill_sell (pf : Portfolio) (pos : Position) (q price fee : ℚ)
    (t : ℕ) (sym : String) (hpos : pf.position = some pos) :
    (applyFill pf (.sell q) price fee t sym).realized_pnl
      = pf.realized_pnl + q * (price - pos.entry_price) := by
  simp [applyFill, hpos]

theorem entryValue_applyFill_sell (pf : Portfolio) (pos : Position) (q price fee : ℚ)
    (t : ℕ) (sym : String) (hpos : pf.position = some pos) :
    (applyFill pf (.sell q) price fee t sym).entryValue
      = (pos.quantity - q) * pos.entry_price := by
  by_cases hz : pos.quantity - q = 0 <;>
    simp [applyFill, hpos, Portfolio.entryValue, hz]

theorem entryValue_some (pf : Portfolio) (pos : Position) (hpos : pf.position = some pos) :
    pf.entryValue = pos.quantity * pos.entry_price := by
  simp [Portfolio.entryValue, hpos]

theorem solvent_recon_applyFill_buy (pf : Portfolio) (n price fee : ℚ) (t : ℕ)
    (sym : String) (init : ℚ)
    (hn0 : 0 ≤ n) (hncash : n ≤ pf.cash_balance) (hp : 0 < price)
    (hfee0 : 0 ≤ fee) (hfee1 : fee ≤ 1)
    (hsol : pf.solvent) (hrec : reconciles init pf) :
    (applyFill pf (.buy n) price fee t sym).solvent
      ∧ reconciles init (applyFill pf (.buy n) price fee t sym) := by
  obtain ⟨hcash, hq⟩ := hsol
  have hinv0 : 0 ≤ n - fee * n := by nlinarith
  refine ⟨⟨?_, ?_⟩, ?_⟩
  · rw [cash_applyFill_buy]
    linarith
  · rw [posQty_applyFill_buy]
    exact add_nonneg hq (div_nonneg hinv0 (le_of_lt hp))
  · unfold reconciles grossEquity at hrec ⊢
    rw [entryValue_applyFill_buy pf n price fee t sym hp hq hinv0, cash_applyFill_buy,
      realized_applyFill_buy, fees_applyFill_buy]
    linarith

theorem solvent_recon_applyFill_sell (pf : Portfolio) (q price fee : ℚ) (t : ℕ)
    (sym : String) (init : ℚ)
    (hq0 : 0 ≤ q) (hq1 : q ≤ pf.posQty) (hp : 0 < price)
    (hfee0 : 0 ≤ fee) (hfee1 : fee ≤ 1)
    (hsol : pf.solvent) (hrec : reconciles init pf) :
    (applyFill pf (.sell q) price fee t sym).solvent
      ∧ reconciles init (applyFill pf (.sell q) price fee t sym) := by
  obtain ⟨hcash, hq⟩ := hsol
  cases hpos : pf.position with
  | none =>
    simp only [applyFill, hpos]
    exact ⟨⟨hcash, hq⟩, hrec⟩
  | some pos =>
    have hqq : pf.posQty = pos.quantity := by simp [Portfolio.posQty, hpos]
    have hqp : 0 ≤ q * price := mul_nonneg hq0 (le_of_lt hp)
    have hfq : fee * (q * price) ≤ q * price := by nlinarith
    refine ⟨⟨?_, ?_⟩, ?_⟩
    · rw [cash_applyFill_sell pf pos q price fee t sym hpos]
      linarith
    · rw [posQty_applyFill_sell pf pos q price fee t sym hpos]
      rw [hqq] at hq1
      linarith
    · unfold reconciles grossEquity at hrec ⊢
      rw [entryValue_some pf pos hpos] at hrec
      rw [entryValue_applyFill_sell pf pos q price fee t sym hpos,
        cash_applyFill_sell pf pos q price fee t sym hpos,
        realized_applyFill_sell pf pos q price fee t sym hpos,
        fees_applyFill_sell pf pos q price fee t sym hpos]
      linear_combination hrec

theorem solvent_recon_gateVetoAndResize (intended : Action) (pf : Portfolio)
    (price fee : ℚ) (limits : RiskLimits) (hist : TradeHistoryToday) (drawdown : ℚ)
    (t : ℕ) (sym : String) (init : ℚ)
    (hp : 0 < price) (hfee0 : 0 ≤ fee) (hfee1 : fee ≤ 1)
    (hmtp : 0 ≤ limits.max_trade_percentage)
    (hsol : pf.solvent) (hrec : reconciles init pf) :
    (applyGated pf (gateVetoAndResize intended pf price fee limits hist drawdown)
        price fee t sym).solvent
      ∧ reconciles init
        (applyGated pf (gateVetoAndResize intended pf price fee limits hist drawdown)
          price fee t sym) := by
  obtain ⟨hcash, hq⟩ := hsol
  unfold gateVetoAndResize
  split_ifs with h1 h2 h3 h4 h5
  · exact ⟨⟨hcash, hq⟩, hrec⟩
  · exact ⟨⟨hcash, hq⟩, hrec⟩
  · exact ⟨⟨hcash, hq⟩, hrec⟩
  · -- resized buy
    have hE : 0 ≤ pf.equity price := by
      unfold Portfolio.equity Portfolio.positionValue
      exact add_nonneg hcash (mul_nonneg hq (le_of_lt hp))
    have hn0 : 0 ≤ min (intended.buyFraction * pf.cash_balance)
        (min (limits.max_trade_percentage * pf.equity price)
          (max 0 ((limits.max_position_percentage * pf.equity price
            - pf.positionValue price) / (1 - fee)))) :=
      le_min (mul_nonneg (Action.buyFraction_nonneg intended) hcash)
        (le_min (mul_nonneg hmtp hE) (le_max_left 0 _))
    have hncash : min (intended.buyFraction * pf.cash_balance)
        (min (limits.max_trade_percentage * pf.equity price)
          (max 0 ((limits.max_position_percentage * pf.equity price
            - pf.positionValue price) / (1 - fee))))
        ≤ pf.cash_balance :=
      le_trans (min_le_left _ _)
        (mul_le_of_le_one_left hcash (Action.buyFraction_le_one intended))
    exact solvent_recon_applyFill_buy pf _ price fee t sym init hn0 hncash hp hfee0 hfee1
      ⟨hcash, hq⟩ hrec
  · -- allowed fractional sell
    exact solvent_recon_applyFill_sell pf _ price fee t sym init
      (mul_nonneg (Action.sellFraction_nonneg intended) hq)
      (mul_le_of_le_one_left hq (Action.sellFraction_le_one intended))
      hp hfee0 hfee1 ⟨hcash, hq⟩ hrec
  · exact ⟨⟨hcash, hq⟩, hrec⟩

theorem solvent_recon_gate (intended : Action) (pf : Portfolio)
    (price fee : ℚ) (limits : RiskLimits) (hist : TradeHistoryToday) (drawdown : ℚ)
    (t : ℕ) (sym : String) (init : ℚ)
    (hp : 0 < price) (hfee0 : 0 ≤ fee) (hfee1 : fee ≤ 1)
    (hmtp : 0 ≤ limits.max_trade_percentage)
    (hsol : pf.solvent) (hrec : reconciles init pf) :
    (applyGated pf (gate intended pf price fee limits hist drawdown) price fee t sym).solvent
      ∧ reconciles init
        (applyGated pf (gate intended pf price fee limits hist drawdown) price fee t sym) := by
  unfold gate
  cases hpos : pf.position with
  | none =>
    exact solvent_recon_gateVetoAndResize intended pf price fee limits hist drawdown t sym
      init hp hfee0 hfee1 hmtp hsol hrec
  | some pos =>
    dsimp only
    have hqq : pf.posQty = pos.quantity := by simp [Portfolio.posQty, hpos]
    split_ifs with h1 h2
    · exact solvent_recon_applyFill_sell pf pos.quantity price fee t sym init
        (by rw [← hqq]; exact hsol.2) (le_of_eq hqq.symm) hp hfee0 hfee1 hsol hrec
    · exact solvent_recon_applyFill_sell pf pos.quantity price fee t sym init
        (by rw [← hqq]; exact hsol.2) (le_of_eq hqq.symm) hp hfee0 hfee1 hsol hrec
    · exact solvent_recon_gateVetoAndResize intended pf price fee limits hist drawdown t sym
        init hp hfee0 hfee1 hmtp hsol hrec

/-- Claim C2: along any sequence of gated decision cycles with confirmed
simulated fills starting from a non-negative initial balance, the portfolio
keeps `cash_balance ≥ 0`, and `quantity * entry_price + cash_balance`
always reconciles to total equity (initial balance plus realized profit)
minus cumulative fees. -/
theorem runSteps_solvency_reconciliation (fee : ℚ) (limits : RiskLimits) (sym : String)
    (init : ℚ) (inputs : List StepInput)
    (hfee0 : 0 ≤ fee) (hfee1 : fee ≤ 1) (hinit : 0 ≤ init)
    (hmtp : 0 ≤ limits.max_trade_percentage)
    (hpr : ∀ i ∈ inputs, 0 < i.price) :
    0 ≤ (runSteps fee limits sym init inputs).cash_balance
    ∧ (runSteps fee limits sym init inputs).entryValue
        + (runSteps fee limits sym init inputs).cash_balance
      = grossEquity init (runSteps fee limits sym init inputs)
        - (runSteps fee limits sym init inputs).total_fees := by
  have main : ∀ (l : List StepInput) (pf : Portfolio), (∀ i ∈ l, 0 < i.price) →
      pf.solvent → reconciles init pf →
      (l.foldl (fun pf i =>
          applyGated pf (gate i.intended pf i.price fee limits i.hist i.drawdown)
            i.price fee i.time sym) pf).solvent
      ∧ reconciles init (l.foldl (fun pf i =>
          applyGated pf (gate i.intended pf i.price fee limits i.hist i.drawdown)
            i.price fee i.time sym) pf) := by
    intro l
    induction l with
    | nil =>
      intro pf _ hsol hrec
      exact ⟨hsol, hrec⟩
    | cons i l ih =>
      intro pf hprl hsol hrec
      simp only [List.foldl_cons]
      have hstep := solvent_recon_gate i.intended pf i.price fee limits i.hist i.drawdown
        i.time sym init (hprl i (List.mem_cons_self i l)) hfee0 hfee1 hmtp hsol hrec
      exact ih _ (fun j hj => hprl j (List.mem_cons_of_mem i hj)) hstep.1 hstep.2
  have h := main inputs (initialPortfolio init) hpr
    ⟨by simpa [initialPortfolio] using hinit, by simp [initialPortfolio, Portfolio.posQty]⟩
    (by simp [reconciles, grossEquity, initialPortfolio, Portfolio.entryValue])
  exact ⟨h.1.1, h.2⟩

/-- Witness for C2: a concrete two-cycle run (a resized buy at 100, then a
full exit at 110) with 0.1% commission. -/
theorem runSteps_solvency_reconciliation_witness :
    0 ≤ (runSteps (1/1000) sampleLimits "BTCUSDT" 10000 c2Inputs).cash_balance
    ∧ (runSteps (1/1000) sampleLimits "BTCUSDT" 10000 c2Inputs).entryValue
        + (runSteps (1/1000) sampleLimits "BTCUSDT" 10000 c2Inputs).cash_balance
      = grossEquity 10000 (runSteps (1/1000) sampleLimits "BTCUSDT" 10000 c2Inputs)
        - (runSteps (1/1000) sampleLimits "BTCUSDT" 10000 c2Inputs).total_fees :=
  runSteps_solvency_reconciliation (1/1000) sampleLimits "BTCUSDT" 10000 c2Inputs
    (by norm_num) (by norm_num) (by norm_num) (by norm_num [sampleLimits])
    (by
      intro i hi
      simp only [c2Inputs, List.mem_cons, List.mem_singleton, List.not_mem_nil, or_false] at hi
      rcases hi with rfl | rfl <;> norm_num)

/-! ## Strategies page: handleFormChange frame conditions (claim C10) -/

end CryptoBot
